import Mathlib

/-!
Shallow embedding of the neural style transfer core in `src/main.py`
(Flask app around a VGG-based style-transfer optimization engine).

Modelling conventions:
* A rank-4 torch tensor `(batch, channels, height, width)` is a `Tensor4`:
  four dimension fields plus a total data function `ℕ → ℕ → ℕ → ℕ → ℚ`.
  Machine floats are modelled by exact rationals; entries at indices outside
  the dimension bounds are never read by the modelled operations.
* A 2-D tensor is a `MatrixT` (dimension fields plus `ℕ → ℕ → ℚ`).
* `input.view(b*c, h*w)` on a contiguous tensor is the row-major reindexing
  `(i, k) ↦ data (i / c) (i % c) (k / w) (k % w)` (`Tensor4.view2`).
* `.detach()` only affects the autodiff graph, so it is the identity on values.
* Forward evaluation of an assembled model prefix on an image (convolution
  arithmetic with external pretrained VGG weights) is not part of the source
  repository; it is passed as an uninterpreted parameter `evalModel` to the
  model assembler.  The pixel update of the LBFGS optimizer is likewise external
  and passed as an uninterpreted parameter `optStep`, and the number of extra
  line-search closure re-invocations it performs at each outer step (beyond
  the mandatory first call) is the parameter `extra`.
-/

set_option linter.unusedVariables false

namespace NST

/-- A rank-4 tensor `(batch, channels, height, width)`, as produced by
`load_image` / intermediate VGG layers in `src/main.py`. -/
structure Tensor4 where
  batch : ℕ
  channels : ℕ
  height : ℕ
  width : ℕ
  data : ℕ → ℕ → ℕ → ℕ → ℚ

/-- A rank-2 tensor (matrix). -/
structure MatrixT where
  rows : ℕ
  cols : ℕ
  data : ℕ → ℕ → ℚ

/-- Torch `m.t()` — matrix transpose. -/
def MatrixT.transpose (m : MatrixT) : MatrixT :=
  MatrixT.mk m.cols m.rows (fun i j => m.data j i)

/-- The reshape `input.view(batch_size * num_features, height * width)` from
`gram_matrix` (src/main.py line 44): the row-major flattening of a
contiguous rank-4 tensor into a `(b*c) × (h*w)` matrix. -/
def Tensor4.view2 (t : Tensor4) : MatrixT :=
  MatrixT.mk (t.batch * t.channels) (t.height * t.width)
    (fun i k => t.data (i / t.channels) (i % t.channels) (k / t.width) (k % t.width))

/-- Function `gram_matrix` (src/main.py lines 42-46):
`features = input.view(b*c, h*w); gram = features.mm(features.t());
return gram.div(b*c*h*w)`. -/
def gram_matrix (input : Tensor4) : MatrixT :=
  MatrixT.mk (input.batch * input.channels) (input.batch * input.channels)
    (fun i j =>
      (∑ k in Finset.range (input.height * input.width),
          input.view2.data i k * input.view2.data j k) /
        ((input.batch * input.channels * input.height * input.width : ℕ) : ℚ))

/-- Torch `F.mse_loss` on two rank-4 tensors of equal shape: the mean of the
squared elementwise differences. -/
def Tensor4.mse_loss (input target : Tensor4) : ℚ :=
  (∑ b in Finset.range input.batch, ∑ c in Finset.range input.channels,
      ∑ y in Finset.range input.height, ∑ x in Finset.range input.width,
        (input.data b c y x - target.data b c y x) ^ 2) /
    ((input.batch * input.channels * input.height * input.width : ℕ) : ℚ)

/-- Torch `F.mse_loss` on two matrices of equal shape. -/
def MatrixT.mse_loss (a b : MatrixT) : ℚ :=
  (∑ i in Finset.range a.rows, ∑ j in Finset.range a.cols,
      (a.data i j - b.data i j) ^ 2) /
    ((a.rows * a.cols : ℕ) : ℚ)

/-- Class `ContentLoss` (src/main.py lines 31-38): stores a detached target
feature map and, after each forward evaluation, the current scalar loss
(`none` before the first forward call). -/
structure ContentLoss where
  target : Tensor4
  loss : Option ℚ

/-- Constructor `ContentLoss.__init__`: `self.target = target.detach()` (value identity). -/
def ContentLoss.init (target : Tensor4) : ContentLoss :=
  ContentLoss.mk target none

/-- Method `ContentLoss.forward`: `self.loss = F.mse_loss(input, self.target);
return input`. -/
def ContentLoss.forward (self : ContentLoss) (input : Tensor4) :
    ContentLoss × Tensor4 :=
  (ContentLoss.mk self.target (some (Tensor4.mse_loss input self.target)), input)

/-- Class `StyleLoss` (src/main.py lines 50-58): stores the detached Gram matrix
of the target feature map and the current scalar loss. -/
structure StyleLoss where
  target : MatrixT
  loss : Option ℚ

/-- Constructor `StyleLoss.__init__`: `self.target = gram_matrix(target_feature).detach()`. -/
def StyleLoss.init (target_feature : Tensor4) : StyleLoss :=
  StyleLoss.mk (gram_matrix target_feature) none

/-- Method `StyleLoss.forward`: `G = gram_matrix(input);
self.loss = F.mse_loss(G, self.target); return input`. -/
def StyleLoss.forward (self : StyleLoss) (input : Tensor4) :
    StyleLoss × Tensor4 :=
  (StyleLoss.mk self.target
      (some (MatrixT.mse_loss (gram_matrix input) self.target)), input)

/-- A feature map whose spatial `(height, width)` positions have been permuted
by `σ`, identically across all batch/channel slots (the dimensions are
unchanged; indices outside the spatial bounds are left as in `t`). -/
def Tensor4.spatialPermute (t : Tensor4)
    (σ : Equiv.Perm (Fin t.height × Fin t.width)) : Tensor4 :=
  Tensor4.mk t.batch t.channels t.height t.width
    (fun b c y x =>
      if h : y < t.height ∧ x < t.width then
        t.data b c ((σ (⟨y, h.1⟩, ⟨x, h.2⟩)).1 : ℕ) ((σ (⟨y, h.1⟩, ⟨x, h.2⟩)).2 : ℕ)
      else t.data b c y x)

/-- Summing over a flat row-major spatial index range is summing over
`Fin h × Fin w`. -/
lemma sum_range_divmod (h w : ℕ) (f : ℕ → ℕ → ℚ) :
    ∑ k in Finset.range (h * w), f (k / w) (k % w) =
      ∑ p : Fin h × Fin w, f (p.1 : ℕ) (p.2 : ℕ) := by
  rw [← Fin.sum_univ_eq_sum_range (fun k => f (k / w) (k % w)) (h * w)]
  rw [← Equiv.sum_comp finProdFinEquiv
        (fun k : Fin (h * w) => f ((k : ℕ) / w) ((k : ℕ) % w))]
  apply Finset.sum_congr rfl
  intro p _
  have hw : 0 < w := p.2.pos
  have h1 : ((finProdFinEquiv p : Fin (h * w)) : ℕ) = (p.2 : ℕ) + w * (p.1 : ℕ) := rfl
  simp only [h1]
  rw [Nat.add_mul_div_left _ _ hw, Nat.div_eq_of_lt p.2.isLt,
    Nat.add_mul_mod_self_left, Nat.mod_eq_of_lt p.2.isLt, Nat.zero_add]

/-- A spatial permutation of the summand leaves the flattened spatial sum
unchanged. -/
lemma sum_perm_spatial (h w : ℕ) (σ : Equiv.Perm (Fin h × Fin w))
    (f g : ℕ → ℕ → ℚ)
    (hfg : ∀ (y : Fin h) (x : Fin w),
      f (y : ℕ) (x : ℕ) = g ((σ (y, x)).1 : ℕ) ((σ (y, x)).2 : ℕ)) :
    ∑ k in Finset.range (h * w), f (k / w) (k % w) =
      ∑ k in Finset.range (h * w), g (k / w) (k % w) := by
  rw [sum_range_divmod h w f, sum_range_divmod h w g]
  calc ∑ p : Fin h × Fin w, f (p.1 : ℕ) (p.2 : ℕ)
      = ∑ p : Fin h × Fin w, g ((σ p).1 : ℕ) ((σ p).2 : ℕ) := by
        apply Finset.sum_congr rfl
        intro p _
        have := hfg p.1 p.2
        rwa [Prod.mk.eta] at this
    _ = ∑ p : Fin h × Fin w, g (p.1 : ℕ) (p.2 : ℕ) :=
        Equiv.sum_comp σ (fun p : Fin h × Fin w => g (p.1 : ℕ) (p.2 : ℕ))

/-- C1: for every rank-4 feature map, the Gram matrix equals its own
transpose (exact symmetry, hence symmetry up to any tolerance). -/
theorem gram_matrix_symmetric (input : Tensor4) :
    gram_matrix input = (gram_matrix input).transpose := by
  unfold gram_matrix MatrixT.transpose
  dsimp only
  refine congrArg (MatrixT.mk _ _) (funext fun i => funext fun j => ?_)
  exact congrArg
    (fun S => S / ((input.batch * input.channels * input.height * input.width : ℕ) : ℚ))
    (Finset.sum_congr rfl fun k _ =>
      mul_comm (input.view2.data i k) (input.view2.data j k))

/-- C2: the taps `ContentLoss.forward` and `StyleLoss.forward` return the input
unchanged and store the scalar mean-squared-error loss against the stored
target; the targets captured at construction are the raw feature map
(ContentLoss) and the Gram matrix of the feature map (StyleLoss). -/
theorem loss_taps_pass_through :
    (∀ (m : ContentLoss) (input : Tensor4),
        (m.forward input).2 = input ∧
        (m.forward input).1.loss = some (Tensor4.mse_loss input m.target)) ∧
    (∀ (m : StyleLoss) (input : Tensor4),
        (m.forward input).2 = input ∧
        (m.forward input).1.loss =
          some (MatrixT.mse_loss (gram_matrix input) m.target)) ∧
    (∀ t : Tensor4, (ContentLoss.init t).target = t) ∧
    (∀ t : Tensor4, (StyleLoss.init t).target = gram_matrix t) :=
  ⟨fun m input => ⟨rfl, rfl⟩, fun m input => ⟨rfl, rfl⟩, fun t => rfl, fun t => rfl⟩

/-- A concrete `(batch, channels, height, width) = (2, 3, 1, 1)` feature map. -/
def tBatch2 : Tensor4 := Tensor4.mk 2 3 1 1 (fun _ _ _ _ => 0)

/-- A concrete `(1, 2, 1, 1)` feature map. -/
def tBatch1 : Tensor4 := Tensor4.mk 1 2 1 1 (fun _ _ _ _ => 0)

/-- C7 counterexample: the Gram matrix of a `(batch, channels, h, w)` feature
map is NOT in general of size `channels × channels`: for a batch of 2 with 3
channels it is `6 × 6`. -/
theorem gram_square_channels_cex :
    ¬ (∀ t : Tensor4,
        (gram_matrix t).rows = t.channels ∧ (gram_matrix t).cols = t.channels) := by
  intro h
  have h1 := (h tBatch2).1
  have h2 : (gram_matrix tBatch2).rows = 6 := rfl
  have h3 : tBatch2.channels = 3 := rfl
  rw [h2, h3] at h1
  exact absurd h1 (by decide)

/-- C7 (amended): the function `gram_matrix` reshapes the `(b, c, h, w)` feature map into
the `(b·c) × (h·w)` matrix `F = view2`, computes `F·Fᵗ`, divides elementwise
by `b·c·h·w`, and the result is a square matrix of size `(b·c) × (b·c)` —
which equals `channels × channels` exactly when `batch = 1` (as is the case
for every image this program feeds it). -/
theorem gram_shape (t : Tensor4) :
    (gram_matrix t).rows = t.batch * t.channels ∧
    (gram_matrix t).cols = t.batch * t.channels ∧
    t.view2.rows = t.batch * t.channels ∧
    t.view2.cols = t.height * t.width ∧
    (∀ i j, (gram_matrix t).data i j =
      (∑ k in Finset.range (t.height * t.width),
          t.view2.data i k * t.view2.data j k) /
        ((t.batch * t.channels * t.height * t.width : ℕ) : ℚ)) ∧
    (t.batch = 1 → (gram_matrix t).rows = t.channels) := by
  refine ⟨rfl, rfl, rfl, rfl, fun i j => rfl, fun h => ?_⟩
  show t.batch * t.channels = t.channels
  rw [h, Nat.one_mul]

/-- C7 witness: at a concrete batch-1 feature map the Gram matrix is
`channels × channels`. -/
theorem gram_shape_witness :
    tBatch1.batch = 1 ∧ (gram_matrix tBatch1).rows = tBatch1.channels :=
  ⟨rfl, (gram_shape tBatch1).2.2.2.2.2 rfl⟩

/-- C8: the Gram matrix is invariant under any permutation of the spatial
`height × width` positions applied identically across all channels. -/
theorem gram_matrix_spatial_perm_invariant (t : Tensor4)
    (σ : Equiv.Perm (Fin t.height × Fin t.width)) :
    gram_matrix (t.spatialPermute σ) = gram_matrix t := by
  unfold gram_matrix Tensor4.view2 Tensor4.spatialPermute
  dsimp only
  refine congrArg (MatrixT.mk _ _) (funext fun i => funext fun j => ?_)
  refine congrArg
    (fun S => S / ((t.batch * t.channels * t.height * t.width : ℕ) : ℚ)) ?_
  refine sum_perm_spatial t.height t.width σ
    (fun y x =>
      (if h : y < t.height ∧ x < t.width then
        t.data (i / t.channels) (i % t.channels)
          ((σ (⟨y, h.1⟩, ⟨x, h.2⟩)).1 : ℕ) ((σ (⟨y, h.1⟩, ⟨x, h.2⟩)).2 : ℕ)
      else t.data (i / t.channels) (i % t.channels) y x) *
      (if h : y < t.height ∧ x < t.width then
        t.data (j / t.channels) (j % t.channels)
          ((σ (⟨y, h.1⟩, ⟨x, h.2⟩)).1 : ℕ) ((σ (⟨y, h.1⟩, ⟨x, h.2⟩)).2 : ℕ)
      else t.data (j / t.channels) (j % t.channels) y x))
    (fun y x =>
      t.data (i / t.channels) (i % t.channels) y x *
      t.data (j / t.channels) (j % t.channels) y x)
    (fun y x => ?_)
  have hc : ((y : ℕ) < t.height ∧ (x : ℕ) < t.width) := ⟨y.isLt, x.isLt⟩
  dsimp only
  rw [dif_pos hc, dif_pos hc]

/-! ## Model assembler (`get_style_model_and_losses`, src/main.py lines 85-126) -/

/-- A layer of the input feature extractor (`cnn.children()`), classified the
way the `isinstance` chain of the assembler sees it; `other` covers every
unrecognized layer class (with its class name). -/
inductive RawLayer where
  | conv2d
  | relu (inplace : Bool)
  | maxPool2d
  | batchNorm2d
  | other (className : String)
deriving DecidableEq

/-- Is this a layer kind outside the four recognized kinds? -/
def RawLayer.isOther : RawLayer → Bool
  | RawLayer.other _ => true
  | _ => false

/-- A module of the assembled `nn.Sequential` model. -/
inductive NNModule where
  | normalization (mean std : List ℚ)
  | conv2d
  | relu (inplace : Bool)
  | maxPool2d
  | batchNorm2d
  | contentLossM (m : ContentLoss)
  | styleLossM (m : StyleLoss)

/-- Is this named module a loss tap (`ContentLoss` or `StyleLoss`)? -/
def isTapEntry : String × NNModule → Bool
  | (_, NNModule.contentLossM _) => true
  | (_, NNModule.styleLossM _) => true
  | _ => false

/-- A forward evaluation of the model-so-far performed during assembly to
capture a target (`model(content_img)` / `model(style_img)`). -/
inductive Event where
  | contentCapture (name : String)
  | styleCapture (name : String)
deriving DecidableEq

/-- The tap-insertion step after appending the layer named `name`
(src/main.py lines 108-118): if `name` is in the content-tap set, evaluate
the model-so-far on the content image, wrap the detached result in a
`ContentLoss`, append and record it; then likewise for the style-tap set
with the Gram matrix of the style-image feature map.  Returns the updated
`(model, style_losses, content_losses, trace)`. -/
def addTaps (evalModel : List (String × NNModule) → Tensor4 → Tensor4)
    (style_img content_img : Tensor4) (cl sl : List String) (i : ℕ)
    (name : String) (model : List (String × NNModule))
    (sls : List StyleLoss) (cls : List ContentLoss) (trace : List Event) :
    List (String × NNModule) × List StyleLoss × List ContentLoss × List Event :=
  let r1 :=
    if name ∈ cl then
      let target := evalModel model content_img
      let c := ContentLoss.init target
      (model ++ [("content_loss_" ++ toString i, NNModule.contentLossM c)],
        cls ++ [c], trace ++ [Event.contentCapture name])
    else (model, cls, trace)
  let r2 :=
    if name ∈ sl then
      let target_feature := evalModel r1.1 style_img
      let s := StyleLoss.init target_feature
      (r1.1 ++ [("style_loss_" ++ toString i, NNModule.styleLossM s)],
        sls ++ [s], r1.2.2 ++ [Event.styleCapture name])
    else (r1.1, sls, r1.2.2)
  (r2.1, r2.2.1, r1.2.1, r2.2.2)

/-- The walk over `cnn.children()` (src/main.py lines 91-118): classify each
layer (raising on an unrecognized kind), assign it the name `kind_i` where
`i` counts convolutions seen so far, rebuild activations with
`inplace=False`, append it, and insert loss taps.  Returns the capture-event
trace and either the error message or `(model, style_losses,
content_losses)`. -/
def walkLayers (evalModel : List (String × NNModule) → Tensor4 → Tensor4)
    (style_img content_img : Tensor4) (cl sl : List String) :
    List RawLayer → ℕ → List (String × NNModule) → List StyleLoss →
    List ContentLoss → List Event →
    List Event ×
      Except String (List (String × NNModule) × List StyleLoss × List ContentLoss)
  | [], _, model, sls, cls, trace => (trace, Except.ok (model, sls, cls))
  | RawLayer.conv2d :: rest, i, model, sls, cls, trace =>
      let name := "conv_" ++ toString (i + 1)
      let r := addTaps evalModel style_img content_img cl sl (i + 1) name
        (model ++ [(name, NNModule.conv2d)]) sls cls trace
      walkLayers evalModel style_img content_img cl sl rest (i + 1)
        r.1 r.2.1 r.2.2.1 r.2.2.2
  | RawLayer.relu inplace :: rest, i, model, sls, cls, trace =>
      let name := "relu_" ++ toString i
      let r := addTaps evalModel style_img content_img cl sl i name
        (model ++ [(name, NNModule.relu false)]) sls cls trace
      walkLayers evalModel style_img content_img cl sl rest i
        r.1 r.2.1 r.2.2.1 r.2.2.2
  | RawLayer.maxPool2d :: rest, i, model, sls, cls, trace =>
      let name := "pool_" ++ toString i
      let r := addTaps evalModel style_img content_img cl sl i name
        (model ++ [(name, NNModule.maxPool2d)]) sls cls trace
      walkLayers evalModel style_img content_img cl sl rest i
        r.1 r.2.1 r.2.2.1 r.2.2.2
  | RawLayer.batchNorm2d :: rest, i, model, sls, cls, trace =>
      let name := "bn_" ++ toString i
      let r := addTaps evalModel style_img content_img cl sl i name
        (model ++ [(name, NNModule.batchNorm2d)]) sls cls trace
      walkLayers evalModel style_img content_img cl sl rest i
        r.1 r.2.1 r.2.2.1 r.2.2.2
  | RawLayer.other className :: _, _, _, _, _, trace =>
      (trace, Except.error ("Unrecognized layer: " ++ className))

/-- The truncation after the walk (src/main.py lines 120-125): the backward
index scan `for i in range(len(model)-1, -1, -1): if tap: break` followed by
`model = model[:(i+1)]`.  Dropping the trailing non-tap entries of the
reversed model and reversing back is exactly `model[:(i+1)]` for `i` the
index of the last tap; when no tap exists the scan falls through with
`i = 0`, i.e. `model[:1]`. -/
def trimModel (model : List (String × NNModule)) : List (String × NNModule) :=
  match model.reverse.dropWhile (fun e => ! isTapEntry e) with
  | [] => model.take 1
  | e :: r => ((e :: r) : List (String × NNModule)).reverse

/-- Default content-tap layer names (src/main.py line 80). -/
def content_layers : List String := ["conv_3"]

/-- Default style-tap layer names (src/main.py line 81). -/
def style_layers : List String :=
  ["conv_1", "conv_2", "conv_3", "conv_4", "conv_5"]

/-- Function `get_style_model_and_losses` (src/main.py lines 85-126): start from the
normalization module (auto-named `"0"` by `nn.Sequential`), walk the feature
extractor inserting loss taps, then trim everything after the last tap.
Also returns the trace of target-capture forward evaluations performed
during assembly. -/
def get_style_model_and_losses
    (evalModel : List (String × NNModule) → Tensor4 → Tensor4)
    (mean std : List ℚ) (style_img content_img : Tensor4)
    (cl sl : List String) (cnn : List RawLayer) :
    List Event ×
      Except String (List (String × NNModule) × List StyleLoss × List ContentLoss) :=
  match walkLayers evalModel style_img content_img cl sl cnn 0
      [("0", NNModule.normalization mean std)] [] [] [] with
  | (trace, Except.error e) => (trace, Except.error e)
  | (trace, Except.ok (model, sls, cls)) =>
      (trace, Except.ok (trimModel model, sls, cls))

/-! ## Optimization loop (`run_style_transfer`, src/main.py lines 136-178) -/

/-- Torch `input_img.data.clamp_(0, 1)` — clamp of every entry to `[0, 1]`. -/
def clamp01 (t : Tensor4) : Tensor4 :=
  Tensor4.mk t.batch t.channels t.height t.width
    (fun b c y x => min (max (t.data b c y x) 0) 1)

/-- One unfolding of the `while run[0] <= num_steps` loop (src/main.py lines
144-174), fuel-indexed to make the recursion structural.  State is
`(input_img, run[0], outer)` where `outer` counts iterations of the outer
`while`.  Each `optimizer.step(closure)` invokes the closure `1 + extra
outer` times (LBFGS always calls it at least once; `extra outer` counts the
internal line-search re-invocations); every closure call clamps the image to
`[0, 1]` and increments `run[0]`, and the optimizer then applies its pixel
update `optStep`.  Since `run[0]` grows by at least 1 per iteration, a fuel
of `num_steps + 1` is never exhausted before the loop condition fails
(`styleLoopAux_counter_gt` below), so `styleLoop` is exactly the while loop. -/
def styleLoopAux (optStep : ℕ → Tensor4 → Tensor4) (extra : ℕ → ℕ)
    (num_steps : ℕ) : ℕ → Tensor4 → ℕ → ℕ → Tensor4 × ℕ × ℕ
  | 0, img, counter, outer => (img, counter, outer)
  | fuel + 1, img, counter, outer =>
      if counter ≤ num_steps then
        styleLoopAux optStep extra num_steps fuel
          (optStep outer (clamp01 img)) (counter + 1 + extra outer) (outer + 1)
      else (img, counter, outer)

/-- The full optimization loop: start at `run = [0]`, iterate while
`run[0] <= num_steps`; returns the final image, counter and outer-step
count. -/
def styleLoop (optStep : ℕ → Tensor4 → Tensor4) (extra : ℕ → ℕ)
    (num_steps : ℕ) (input_img : Tensor4) : Tensor4 × ℕ × ℕ :=
  styleLoopAux optStep extra num_steps (num_steps + 1) input_img 0 0

/-- Function `run_style_transfer` (src/main.py lines 136-178): assemble the model
(aborting on its error), run the optimization loop, apply the final
`input_img.data.clamp_(0, 1)` and return the image (plus the final counter
and outer-step count).  The loss-weight parameters only scale the scalar
loss handed to the optimizer, whose pixel update is the uninterpreted
`optStep`. -/
def run_style_transfer
    (evalModel : List (String × NNModule) → Tensor4 → Tensor4)
    (optStep : ℕ → Tensor4 → Tensor4) (extra : ℕ → ℕ)
    (mean std : List ℚ) (content_img style_img input_img : Tensor4)
    (num_steps : ℕ) (style_weight content_weight : ℚ)
    (cl sl : List String) (cnn : List RawLayer) :
    Except String (Tensor4 × ℕ × ℕ) :=
  match (get_style_model_and_losses evalModel mean std style_img content_img
      cl sl cnn).2 with
  | Except.error e => Except.error e
  | Except.ok _ =>
      let r := styleLoop optStep extra num_steps input_img
      Except.ok (clamp01 r.1, r.2.1, r.2.2)

/-! ## Loop lemmas and claims C5, C6 -/

/-- With fuel at least `num_steps + 1 - counter` the loop exits with the
counter strictly above `num_steps` (so that much fuel is never exhausted
mid-loop). -/
lemma styleLoopAux_counter_gt (optStep : ℕ → Tensor4 → Tensor4)
    (extra : ℕ → ℕ) (n : ℕ) :
    ∀ (fuel : ℕ) (img : Tensor4) (c o : ℕ), n + 1 ≤ c + fuel →
      n < (styleLoopAux optStep extra n fuel img c o).2.1 := by
  intro fuel
  induction fuel with
  | zero =>
    intro img c o h
    simp only [styleLoopAux]
    omega
  | succ fuel ih =>
    intro img c o h
    by_cases hc : c ≤ n
    · simp only [styleLoopAux, if_pos hc]
      exact ih _ _ _ (by omega)
    · simp only [styleLoopAux, if_neg hc]
      omega

/-- The outer-step count grows by at most the fuel. -/
lemma styleLoopAux_outer_le (optStep : ℕ → Tensor4 → Tensor4)
    (extra : ℕ → ℕ) (n : ℕ) :
    ∀ (fuel : ℕ) (img : Tensor4) (c o : ℕ),
      (styleLoopAux optStep extra n fuel img c o).2.2 ≤ o + fuel := by
  intro fuel
  induction fuel with
  | zero =>
    intro img c o
    simp only [styleLoopAux]
    omega
  | succ fuel ih =>
    intro img c o
    by_cases hc : c ≤ n
    · simp only [styleLoopAux, if_pos hc]
      exact le_trans (ih _ _ _) (by omega)
    · simp only [styleLoopAux, if_neg hc]
      omega

/-- The final counter is the initial counter plus one increment per closure
invocation: `1 + extra o` for each outer step `o` performed. -/
lemma styleLoopAux_counter_sum (optStep : ℕ → Tensor4 → Tensor4)
    (extra : ℕ → ℕ) (n : ℕ) :
    ∀ (fuel : ℕ) (img : Tensor4) (c o : ℕ),
      o ≤ (styleLoopAux optStep extra n fuel img c o).2.2 ∧
      (styleLoopAux optStep extra n fuel img c o).2.1 =
        c + ∑ i in Finset.Ico o ((styleLoopAux optStep extra n fuel img c o).2.2),
          (1 + extra i) := by
  intro fuel
  induction fuel with
  | zero =>
    intro img c o
    simp [styleLoopAux]
  | succ fuel ih =>
    intro img c o
    by_cases hc : c ≤ n
    · simp only [styleLoopAux, if_pos hc]
      obtain ⟨h1, h2⟩ := ih (optStep o (clamp01 img)) (c + 1 + extra o) (o + 1)
      refine ⟨by omega, ?_⟩
      rw [h2, Finset.sum_eq_sum_Ico_succ_bot (by omega : o <
        (styleLoopAux optStep extra n fuel (optStep o (clamp01 img))
          (c + 1 + extra o) (o + 1)).2.2)]
      ring
    · simp [styleLoopAux, if_neg hc]

/-- C6 counterexample: it is false that the counter advances once per outer
step with the closure re-invocations of the optimizer not advancing it, and that
the loop performs at most `num_steps` outer steps.  With `num_steps = 1` and
one line-search re-invocation per step, a single outer step advances the
counter to 2. -/
theorem loop_counter_once_per_step_cex :
    ¬ (∀ (n : ℕ) (extra : ℕ → ℕ) (optStep : ℕ → Tensor4 → Tensor4)
        (img : Tensor4),
        (styleLoop optStep extra n img).2.1 = (styleLoop optStep extra n img).2.2 ∧
        (styleLoop optStep extra n img).2.2 ≤ n) := by
  intro h
  have h1 := (h 1 (fun _ => 1) (fun _ t => t) tBatch1).1
  have hcnt : (styleLoop (fun _ t => t) (fun _ => 1) 1 tBatch1).2.1 = 2 := rfl
  have hout : (styleLoop (fun _ t => t) (fun _ => 1) 1 tBatch1).2.2 = 1 := rfl
  rw [hcnt, hout] at h1
  exact absurd h1 (by decide)

/-- C6 (amended): the loop repeats until the counter exceeds `num_steps`.
The counter is incremented inside the closure, so the internal
line-search sub-evaluations DO advance it: each outer step advances the
counter by `1 + extra o` (one per closure invocation), the final counter
equals the total number of closure invocations and exceeds `num_steps`, and
the loop performs at most `num_steps + 1` outer steps. -/
theorem loop_counter_counts_closure_calls (n : ℕ) (extra : ℕ → ℕ)
    (optStep : ℕ → Tensor4 → Tensor4) (img : Tensor4) :
    n < (styleLoop optStep extra n img).2.1 ∧
    (styleLoop optStep extra n img).2.2 ≤ n + 1 ∧
    (styleLoop optStep extra n img).2.1 =
      ∑ i in Finset.range ((styleLoop optStep extra n img).2.2), (1 + extra i) := by
  refine ⟨styleLoopAux_counter_gt optStep extra n (n + 1) img 0 0 (by omega),
    le_trans (styleLoopAux_outer_le optStep extra n (n + 1) img 0 0) (by omega), ?_⟩
  have h := (styleLoopAux_counter_sum optStep extra n (n + 1) img 0 0).2
  unfold styleLoop
  rw [h, Finset.range_eq_Ico, Nat.zero_add]

/-- C5: whenever `run_style_transfer` returns a working image, every pixel
value of that image lies in `[0, 1]` — the final clamp is applied before the
result is handed back. -/
theorem run_output_clamped
    (evalModel : List (String × NNModule) → Tensor4 → Tensor4)
    (optStep : ℕ → Tensor4 → Tensor4) (extra : ℕ → ℕ)
    (mean std : List ℚ) (content_img style_img input_img : Tensor4)
    (num_steps : ℕ) (style_weight content_weight : ℚ)
    (cl sl : List String) (cnn : List RawLayer)
    (out : Tensor4) (cnt outr : ℕ)
    (h : run_style_transfer evalModel optStep extra mean std content_img
        style_img input_img num_steps style_weight content_weight cl sl cnn =
      Except.ok (out, cnt, outr)) :
    ∀ b c y x, 0 ≤ out.data b c y x ∧ out.data b c y x ≤ 1 := by
  unfold run_style_transfer at h
  cases h2 : (get_style_model_and_losses evalModel mean std style_img
      content_img cl sl cnn).2 with
  | error e =>
    rw [h2] at h
    exact absurd h (by simp)
  | ok r =>
    rw [h2] at h
    simp only [Except.ok.injEq, Prod.mk.injEq] at h
    obtain ⟨hout, _⟩ := h
    subst hout
    intro b c y x
    constructor
    · exact le_min (le_max_right _ _) (by norm_num)
    · exact min_le_right _ _

/-! ## Concrete fixtures for witnesses and counterexamples -/

/-- A concrete uninterpreted forward evaluator: every model prefix maps every
image to the constant `tBatch1` feature map. -/
def evalM0 : List (String × NNModule) → Tensor4 → Tensor4 := fun _ _ => tBatch1

/-- A concrete optimizer pixel update: the identity. -/
def idStep : ℕ → Tensor4 → Tensor4 := fun _ t => t

/-- No line-search re-invocations. -/
def noExtra : ℕ → ℕ := fun _ => 0

/-- C5 witness: a concrete completed run returns an image whose pixel (0,0,0,0)
lies in `[0, 1]`. -/
theorem run_output_clamped_witness :
    0 ≤ (clamp01 (clamp01 tBatch1)).data 0 0 0 0 ∧
    (clamp01 (clamp01 tBatch1)).data 0 0 0 0 ≤ 1 :=
  run_output_clamped evalM0 idStep noExtra [] [] tBatch1 tBatch1 tBatch1 0 0 0
    content_layers style_layers [] (clamp01 (clamp01 tBatch1)) 1 1 rfl 0 0 0 0

/-! ## Assembler lemmas and claims C3, C4, C9, C10 -/

/-- The model list contains a loss tap. -/
def hasTap (model : List (String × NNModule)) : Prop :=
  ∃ e ∈ model, isTapEntry e = true

lemma hasTap_append {m : List (String × NNModule)}
    (l : List (String × NNModule)) (h : hasTap m) : hasTap (m ++ l) := by
  obtain ⟨e, hm, he⟩ := h
  exact ⟨e, List.mem_append_left l hm, he⟩

/-- Step `addTaps` preserves the invariant that a nonempty loss list witnesses a
tap in the model. -/
lemma addTaps_hasTap {evalM : List (String × NNModule) → Tensor4 → Tensor4}
    {si ci : Tensor4} {cl sl : List String} {i : ℕ} {name : String}
    {model : List (String × NNModule)} {sls : List StyleLoss}
    {cls : List ContentLoss} {trace : List Event}
    (hP : (sls ≠ [] ∨ cls ≠ []) → hasTap model) :
    ((addTaps evalM si ci cl sl i name model sls cls trace).2.1 ≠ [] ∨
      (addTaps evalM si ci cl sl i name model sls cls trace).2.2.1 ≠ []) →
      hasTap (addTaps evalM si ci cl sl i name model sls cls trace).1 := by
  by_cases hc : name ∈ cl <;> by_cases hs : name ∈ sl <;>
    simp only [addTaps, if_pos, if_neg, hc, hs, ite_true, ite_false] <;>
    intro hne
  · exact ⟨("style_loss_" ++ toString i,
      NNModule.styleLossM (StyleLoss.init (evalM
        (model ++ [("content_loss_" ++ toString i,
          NNModule.contentLossM (ContentLoss.init (evalM model ci)))]) si))),
      by simp, rfl⟩
  · exact ⟨("content_loss_" ++ toString i,
      NNModule.contentLossM (ContentLoss.init (evalM model ci))), by simp, rfl⟩
  · exact ⟨("style_loss_" ++ toString i,
      NNModule.styleLossM (StyleLoss.init (evalM model si))), by simp, rfl⟩
  · exact hP hne

/-- Along a successful walk, if the returned loss lists are nonempty then the
returned (untrimmed) model contains a tap. -/
lemma walkLayers_ok_hasTap :
    ∀ (cnn : List RawLayer)
      {evalM : List (String × NNModule) → Tensor4 → Tensor4} {si ci : Tensor4}
      {cl sl : List String} {i : ℕ} {model : List (String × NNModule)}
      {sls : List StyleLoss} {cls : List ContentLoss} {trace tr : List Event}
      {m : List (String × NNModule)} {s : List StyleLoss} {c : List ContentLoss},
      walkLayers evalM si ci cl sl cnn i model sls cls trace =
        (tr, Except.ok (m, s, c)) →
      ((sls ≠ [] ∨ cls ≠ []) → hasTap model) →
      ((s ≠ [] ∨ c ≠ []) → hasTap m) := by
  intro cnn
  induction cnn with
  | nil =>
    intro evalM si ci cl sl i model sls cls trace tr m s c heq hP
    simp only [walkLayers, Prod.mk.injEq, Except.ok.injEq] at heq
    obtain ⟨-, hm, hs, hc⟩ := heq
    subst hm; subst hs; subst hc
    exact hP
  | cons l rest ih =>
    intro evalM si ci cl sl i model sls cls trace tr m s c heq hP
    cases l with
    | conv2d =>
      simp only [walkLayers] at heq
      exact ih heq (addTaps_hasTap (fun h => hasTap_append _ (hP h)))
    | relu inplace =>
      simp only [walkLayers] at heq
      exact ih heq (addTaps_hasTap (fun h => hasTap_append _ (hP h)))
    | maxPool2d =>
      simp only [walkLayers] at heq
      exact ih heq (addTaps_hasTap (fun h => hasTap_append _ (hP h)))
    | batchNorm2d =>
      simp only [walkLayers] at heq
      exact ih heq (addTaps_hasTap (fun h => hasTap_append _ (hP h)))
    | other className =>
      simp only [walkLayers, Prod.mk.injEq] at heq
      exact absurd heq.2 (by simp)

/-- The head of a nonempty `dropWhile` result fails the predicate. -/
lemma dropWhile_head_false {α : Type} (p : α → Bool) :
    ∀ (l : List α) (a : α) (r : List α), l.dropWhile p = a :: r → p a = false := by
  intro l
  induction l with
  | nil => intro a r h; simp [List.dropWhile] at h
  | cons x xs ih =>
    intro a r h
    by_cases hx : p x = true
    · rw [List.dropWhile_cons, if_pos hx] at h
      exact ih a r h
    · rw [List.dropWhile_cons, if_neg hx] at h
      obtain ⟨hxa, -⟩ := List.cons.inj h
      rw [← hxa]
      exact Bool.eq_false_iff.mpr hx

/-- The final entry of the trimmed model. -/
def endsWithTap (m : List (String × NNModule)) : Bool :=
  match m.getLast? with
  | some e => isTapEntry e
  | none => false

/-- If the untrimmed model contains a tap, the trimmed model ends with one. -/
lemma endsWithTap_trimModel {m : List (String × NNModule)} (h : hasTap m) :
    endsWithTap (trimModel m) = true := by
  obtain ⟨e, hm, he⟩ := h
  have hne : m.reverse.dropWhile (fun x => ! isTapEntry x) ≠ [] := by
    intro h0
    rw [List.dropWhile_eq_nil_iff] at h0
    have := h0 e (List.mem_reverse.mpr hm)
    rw [he] at this
    simp at this
  cases hd : m.reverse.dropWhile (fun x => ! isTapEntry x) with
  | nil => exact absurd hd hne
  | cons a r =>
    have ha : (! isTapEntry a) = false :=
      dropWhile_head_false (fun x => ! isTapEntry x) m.reverse a r hd
    unfold trimModel
    rw [hd]
    show endsWithTap ((a :: r).reverse) = true
    unfold endsWithTap
    rw [List.reverse_cons, List.getLast?_concat]
    simpa using ha

/-- Fixture: assembling over a single-convolution extractor with the default
tap sets; with `evalM0` every captured target is `tBatch1`. -/
def convOnlyModel : List (String × NNModule) :=
  [("0", NNModule.normalization [] []), ("conv_1", NNModule.conv2d),
    ("style_loss_1", NNModule.styleLossM (StyleLoss.init tBatch1))]

/-- C3 counterexample: an assembly in which no tap was inserted (a feature
extractor with a single pooling layer, under the default tap sets) returns a
model whose final layer is the normalization module, not a loss tap. -/
theorem assembled_model_last_not_tap_cex :
    (get_style_model_and_losses evalM0 [] [] tBatch1 tBatch1
        content_layers style_layers [RawLayer.maxPool2d]).2.map
      (fun r => endsWithTap r.1) = Except.ok false := rfl

/-- C3 (amended): whenever assembly succeeds and inserted at least one loss
tap (the returned style/content loss lists are not both empty), the returned
model has a ContentLoss or StyleLoss tap as its final layer — hence nothing after
the deepest tap remains.  If no tap was inserted the model is instead
truncated to the normalization module alone. -/
theorem assembled_model_ends_with_tap
    (evalM : List (String × NNModule) → Tensor4 → Tensor4)
    (mean std : List ℚ) (si ci : Tensor4) (cl sl : List String)
    (cnn : List RawLayer) (tr : List Event) (m : List (String × NNModule))
    (s : List StyleLoss) (c : List ContentLoss)
    (heq : get_style_model_and_losses evalM mean std si ci cl sl cnn =
      (tr, Except.ok (m, s, c)))
    (hne : s ≠ [] ∨ c ≠ []) : endsWithTap m = true := by
  unfold get_style_model_and_losses at heq
  cases hw : walkLayers evalM si ci cl sl cnn 0
      [("0", NNModule.normalization mean std)] [] [] [] with
  | mk tr0 res =>
    rw [hw] at heq
    cases res with
    | error e => exact absurd heq (by simp)
    | ok r =>
      obtain ⟨m0, s0, c0⟩ := r
      simp only [Prod.mk.injEq, Except.ok.injEq] at heq
      obtain ⟨-, hm, hs, hc⟩ := heq
      subst hm; subst hs; subst hc
      exact endsWithTap_trimModel
        (walkLayers_ok_hasTap cnn hw (fun h => absurd h (by simp)) hne)

/-- C3 witness: a concrete assembly over `[conv2d]` with the default tap sets
returns a model ending in a StyleLoss tap. -/
theorem assembled_model_ends_with_tap_witness : endsWithTap convOnlyModel = true :=
  assembled_model_ends_with_tap evalM0 [] [] tBatch1 tBatch1
    content_layers style_layers [RawLayer.conv2d]
    [Event.styleCapture "conv_1"] convOnlyModel [StyleLoss.init tBatch1] []
    rfl (Or.inl (by simp))

/-- A walk over a layer list containing an unrecognized layer always ends in
the unrecognized-layer error. -/
lemma walkLayers_other_error :
    ∀ (cnn : List RawLayer)
      {evalM : List (String × NNModule) → Tensor4 → Tensor4} {si ci : Tensor4}
      {cl sl : List String} (i : ℕ) (model : List (String × NNModule))
      (sls : List StyleLoss) (cls : List ContentLoss) (trace : List Event),
      (∃ l ∈ cnn, RawLayer.isOther l = true) →
      ∃ tr msg, walkLayers evalM si ci cl sl cnn i model sls cls trace =
        (tr, Except.error msg) := by
  intro cnn
  induction cnn with
  | nil =>
    intro evalM si ci cl sl i model sls cls trace h
    obtain ⟨l, hl, -⟩ := h
    exact absurd hl (List.not_mem_nil l)
  | cons l rest ih =>
    intro evalM si ci cl sl i model sls cls trace h
    obtain ⟨x, hx, hox⟩ := h
    cases List.mem_cons.mp hx with
    | inl hxl =>
      subst hxl
      cases x with
      | other className => exact ⟨trace, "Unrecognized layer: " ++ className, rfl⟩
      | conv2d => exact absurd hox (by simp [RawLayer.isOther])
      | relu inplace => exact absurd hox (by simp [RawLayer.isOther])
      | maxPool2d => exact absurd hox (by simp [RawLayer.isOther])
      | batchNorm2d => exact absurd hox (by simp [RawLayer.isOther])
    | inr hxr =>
      cases l with
      | conv2d => exact ih _ _ _ _ _ ⟨x, hxr, hox⟩
      | relu inplace => exact ih _ _ _ _ _ ⟨x, hxr, hox⟩
      | maxPool2d => exact ih _ _ _ _ _ ⟨x, hxr, hox⟩
      | batchNorm2d => exact ih _ _ _ _ _ ⟨x, hxr, hox⟩
      | other className =>
        exact ⟨trace, "Unrecognized layer: " ++ className, rfl⟩

/-- C4 counterexample: an unrecognized layer does NOT always abort before any
forward evaluation: with `cnn = [conv2d, other]` under the default tap sets,
a style-target capture (a forward evaluation of the model-so-far) happens
before the error is raised, so the capture trace is nonempty. -/
theorem unrecognized_layer_eval_before_error_cex :
    ¬ (∀ (evalM : List (String × NNModule) → Tensor4 → Tensor4)
        (mean std : List ℚ) (si ci : Tensor4) (cl sl : List String)
        (cnn : List RawLayer),
        (∃ l ∈ cnn, RawLayer.isOther l = true) →
        (get_style_model_and_losses evalM mean std si ci cl sl cnn).1 = []) := by
  intro h
  have h1 := h evalM0 [] [] tBatch1 tBatch1 content_layers style_layers
    [RawLayer.conv2d, RawLayer.other "Linear"]
    ⟨RawLayer.other "Linear", by simp, rfl⟩
  have h2 : (get_style_model_and_losses evalM0 [] [] tBatch1 tBatch1
      content_layers style_layers
      [RawLayer.conv2d, RawLayer.other "Linear"]).1 =
      [Event.styleCapture "conv_1"] := rfl
  rw [h2] at h1
  exact List.noConfusion h1

/-- C4 (amended): a feature extractor containing an unrecognized layer kind
always makes model assembly return the unrecognized-layer error — no model is
produced and `run_style_transfer` aborts with that error before any
optimization step — though target-capture forward evaluations for taps that
precede the offending layer may already have occurred. -/
theorem unrecognized_layer_aborts
    (evalM : List (String × NNModule) → Tensor4 → Tensor4)
    (optStep : ℕ → Tensor4 → Tensor4) (extra : ℕ → ℕ)
    (mean std : List ℚ) (content_img style_img input_img : Tensor4)
    (num_steps : ℕ) (style_weight content_weight : ℚ)
    (cl sl : List String) (cnn : List RawLayer)
    (h : ∃ l ∈ cnn, RawLayer.isOther l = true) :
    ∃ tr msg,
      get_style_model_and_losses evalM mean std style_img content_img cl sl cnn =
        (tr, Except.error msg) ∧
      run_style_transfer evalM optStep extra mean std content_img style_img
        input_img num_steps style_weight content_weight cl sl cnn =
        Except.error msg := by
  obtain ⟨tr, msg, hw⟩ := walkLayers_other_error cnn 0
    [("0", NNModule.normalization mean std)] [] [] [] h
  refine ⟨tr, msg, ?_, ?_⟩
  · unfold get_style_model_and_losses
    rw [hw]
  · unfold run_style_transfer get_style_model_and_losses
    rw [hw]

/-- C4 witness: a concrete extractor `[other "Linear"]` aborts assembly and
the optimization run with the unrecognized-layer error. -/
theorem unrecognized_layer_aborts_witness :
    ∃ tr msg,
      get_style_model_and_losses evalM0 [] [] tBatch1 tBatch1
        content_layers style_layers [RawLayer.other "Linear"] =
        (tr, Except.error msg) ∧
      run_style_transfer evalM0 idStep noExtra [] [] tBatch1 tBatch1 tBatch1
        100 10000 (1 / 1000) content_layers style_layers
        [RawLayer.other "Linear"] = Except.error msg :=
  unrecognized_layer_aborts evalM0 idStep noExtra [] [] tBatch1 tBatch1 tBatch1
    100 10000 (1 / 1000) content_layers style_layers [RawLayer.other "Linear"]
    ⟨RawLayer.other "Linear", by simp, rfl⟩

/-- Did this assembly succeed (no exception raised)? -/
def resultOk {α : Type} : Except String α → Bool
  | Except.ok _ => true
  | Except.error _ => false

/-- A walk over recognized layers only never raises. -/
lemma walkLayers_recognized_ok :
    ∀ (cnn : List RawLayer)
      {evalM : List (String × NNModule) → Tensor4 → Tensor4} {si ci : Tensor4}
      {cl sl : List String} (i : ℕ) (model : List (String × NNModule))
      (sls : List StyleLoss) (cls : List ContentLoss) (trace : List Event),
      (∀ l ∈ cnn, RawLayer.isOther l = false) →
      ∃ tr m s c, walkLayers evalM si ci cl sl cnn i model sls cls trace =
        (tr, Except.ok (m, s, c)) := by
  intro cnn
  induction cnn with
  | nil =>
    intro evalM si ci cl sl i model sls cls trace h
    exact ⟨trace, model, sls, cls, rfl⟩
  | cons l rest ih =>
    intro evalM si ci cl sl i model sls cls trace h
    have hrest : ∀ l2 ∈ rest, RawLayer.isOther l2 = false :=
      fun l2 hl2 => h l2 (List.mem_cons_of_mem l hl2)
    cases l with
    | conv2d => exact ih _ _ _ _ _ hrest
    | relu inplace => exact ih _ _ _ _ _ hrest
    | maxPool2d => exact ih _ _ _ _ _ hrest
    | batchNorm2d => exact ih _ _ _ _ _ hrest
    | other className =>
      exact absurd (h (RawLayer.other className) (List.mem_cons_self _ _))
        (by simp [RawLayer.isOther])

/-- A concrete `(1, 3, 2, 2)` content image. -/
def contentSmall : Tensor4 := Tensor4.mk 1 3 2 2 (fun _ _ _ _ => 0)

/-- A concrete `(1, 3, 4, 4)` style image of a different resolution. -/
def styleLarge : Tensor4 := Tensor4.mk 1 3 4 4 (fun _ _ _ _ => 0)

/-- C9 counterexample: content and style images of different resolutions do
NOT make the core raise any error — assembly succeeds on a concrete 2×2
content image and 4×4 style image. -/
theorem shape_mismatch_not_raised_cex :
    ¬ (∀ (evalM : List (String × NNModule) → Tensor4 → Tensor4)
        (mean std : List ℚ) (si ci : Tensor4) (cl sl : List String)
        (cnn : List RawLayer),
        ¬ (ci.height = si.height ∧ ci.width = si.width) →
        resultOk (get_style_model_and_losses evalM mean std si ci cl sl cnn).2 =
          false) := by
  intro h
  have h1 := h evalM0 [] [] styleLarge contentSmall content_layers style_layers
    [RawLayer.conv2d] (by decide)
  have h2 : resultOk (get_style_model_and_losses evalM0 [] [] styleLarge
      contentSmall content_layers style_layers [RawLayer.conv2d]).2 = true := rfl
  rw [h2] at h1
  exact Bool.noConfusion h1

/-- C9 (amended): the core performs no resolution check at all: model
assembly succeeds for ANY pair of content/style images — matching or not —
whenever every extractor layer is of a recognized kind.  (In the full
program a resolution mismatch cannot even arise: the out-of-scope loader
resizes every input to a fixed 256×256 before it reaches the core.)  There
is no `ShapeMismatchError` in the code. -/
theorem assembly_ignores_resolution
    (evalM : List (String × NNModule) → Tensor4 → Tensor4)
    (mean std : List ℚ) (si ci : Tensor4) (cl sl : List String)
    (cnn : List RawLayer)
    (h : ∀ l ∈ cnn, RawLayer.isOther l = false) :
    resultOk (get_style_model_and_losses evalM mean std si ci cl sl cnn).2 =
      true := by
  obtain ⟨tr, m, s, c, hw⟩ := walkLayers_recognized_ok cnn 0
    [("0", NNModule.normalization mean std)] [] [] [] h
  unfold get_style_model_and_losses
  rw [hw]
  rfl

/-- C9 witness: concrete mismatched-resolution images (2×2 content, 4×4
style) assemble without error over a single-convolution extractor. -/
theorem assembly_ignores_resolution_witness :
    ¬ (contentSmall.height = styleLarge.height ∧
        contentSmall.width = styleLarge.width) ∧
    resultOk (get_style_model_and_losses evalM0 [] [] styleLarge contentSmall
        content_layers style_layers [RawLayer.conv2d]).2 = true :=
  ⟨by decide,
    assembly_ignores_resolution evalM0 [] [] styleLarge contentSmall
      content_layers style_layers [RawLayer.conv2d] (by decide)⟩

/-- The layer names assigned during the walk starting at convolution count
`i` (stopping where the walk would raise). -/
def walkNames : List RawLayer → ℕ → List String
  | [], _ => []
  | RawLayer.conv2d :: rest, i => ("conv_" ++ toString (i + 1)) :: walkNames rest (i + 1)
  | RawLayer.relu _ :: rest, i => ("relu_" ++ toString i) :: walkNames rest i
  | RawLayer.maxPool2d :: rest, i => ("pool_" ++ toString i) :: walkNames rest i
  | RawLayer.batchNorm2d :: rest, i => ("bn_" ++ toString i) :: walkNames rest i
  | RawLayer.other _ :: _, _ => []

/-- Step `addTaps` is the identity on losses and trace when the name is in
neither tap set. -/
lemma addTaps_no_match {evalM : List (String × NNModule) → Tensor4 → Tensor4}
    {si ci : Tensor4} {cl sl : List String} {i : ℕ} {name : String}
    {model : List (String × NNModule)} {sls : List StyleLoss}
    {cls : List ContentLoss} {trace : List Event}
    (hc : name ∉ cl) (hs : name ∉ sl) :
    addTaps evalM si ci cl sl i name model sls cls trace =
      (model, sls, cls, trace) := by
  simp [addTaps, hc, hs]

/-- If no walked layer name is in either tap set, the walk appends only
(non-tap) feature-extractor layers and leaves the loss lists and the capture
trace untouched. -/
lemma walkLayers_no_match :
    ∀ (cnn : List RawLayer)
      {evalM : List (String × NNModule) → Tensor4 → Tensor4} {si ci : Tensor4}
      {cl sl : List String} (i : ℕ) (model : List (String × NNModule))
      (sls : List StyleLoss) (cls : List ContentLoss) (trace : List Event),
      (∀ l ∈ cnn, RawLayer.isOther l = false) →
      (∀ name ∈ walkNames cnn i, name ∉ cl ∧ name ∉ sl) →
      ∃ ext, walkLayers evalM si ci cl sl cnn i model sls cls trace =
          (trace, Except.ok (model ++ ext, sls, cls)) ∧
        ∀ e ∈ ext, isTapEntry e = false := by
  intro cnn
  induction cnn with
  | nil =>
    intro evalM si ci cl sl i model sls cls trace hrec hnm
    exact ⟨[], by simp [walkLayers], by simp⟩
  | cons l rest ih =>
    intro evalM si ci cl sl i model sls cls trace hrec hnm
    have hrest : ∀ l2 ∈ rest, RawLayer.isOther l2 = false :=
      fun l2 hl2 => hrec l2 (List.mem_cons_of_mem l hl2)
    cases l with
    | conv2d =>
      have hhd := hnm ("conv_" ++ toString (i + 1)) (by simp [walkNames])
      have htl : ∀ name ∈ walkNames rest (i + 1), name ∉ cl ∧ name ∉ sl :=
        fun name hn => hnm name (by simp [walkNames, hn])
      obtain ⟨ext, hw, hext⟩ := ih (i + 1)
        (model ++ [("conv_" ++ toString (i + 1), NNModule.conv2d)])
        sls cls trace hrest htl
      refine ⟨("conv_" ++ toString (i + 1), NNModule.conv2d) :: ext, ?_, ?_⟩
      · simp only [walkLayers, addTaps_no_match hhd.1 hhd.2]
        rw [hw]
        simp
      · intro e he
        cases List.mem_cons.mp he with
        | inl h1 => rw [h1]; rfl
        | inr h2 => exact hext e h2
    | relu inplace =>
      have hhd := hnm ("relu_" ++ toString i) (by simp [walkNames])
      have htl : ∀ name ∈ walkNames rest i, name ∉ cl ∧ name ∉ sl :=
        fun name hn => hnm name (by simp [walkNames, hn])
      obtain ⟨ext, hw, hext⟩ := ih i
        (model ++ [("relu_" ++ toString i, NNModule.relu false)])
        sls cls trace hrest htl
      refine ⟨("relu_" ++ toString i, NNModule.relu false) :: ext, ?_, ?_⟩
      · simp only [walkLayers, addTaps_no_match hhd.1 hhd.2]
        rw [hw]
        simp
      · intro e he
        cases List.mem_cons.mp he with
        | inl h1 => rw [h1]; rfl
        | inr h2 => exact hext e h2
    | maxPool2d =>
      have hhd := hnm ("pool_" ++ toString i) (by simp [walkNames])
      have htl : ∀ name ∈ walkNames rest i, name ∉ cl ∧ name ∉ sl :=
        fun name hn => hnm name (by simp [walkNames, hn])
      obtain ⟨ext, hw, hext⟩ := ih i
        (model ++ [("pool_" ++ toString i, NNModule.maxPool2d)])
        sls cls trace hrest htl
      refine ⟨("pool_" ++ toString i, NNModule.maxPool2d) :: ext, ?_, ?_⟩
      · simp only [walkLayers, addTaps_no_match hhd.1 hhd.2]
        rw [hw]
        simp
      · intro e he
        cases List.mem_cons.mp he with
        | inl h1 => rw [h1]; rfl
        | inr h2 => exact hext e h2
    | batchNorm2d =>
      have hhd := hnm ("bn_" ++ toString i) (by simp [walkNames])
      have htl : ∀ name ∈ walkNames rest i, name ∉ cl ∧ name ∉ sl :=
        fun name hn => hnm name (by simp [walkNames, hn])
      obtain ⟨ext, hw, hext⟩ := ih i
        (model ++ [("bn_" ++ toString i, NNModule.batchNorm2d)])
        sls cls trace hrest htl
      refine ⟨("bn_" ++ toString i, NNModule.batchNorm2d) :: ext, ?_, ?_⟩
      · simp only [walkLayers, addTaps_no_match hhd.1 hhd.2]
        rw [hw]
        simp
      · intro e he
        cases List.mem_cons.mp he with
        | inl h1 => rw [h1]; rfl
        | inr h2 => exact hext e h2
    | other className =>
      exact absurd (hrec (RawLayer.other className) (List.mem_cons_self _ _))
        (by simp [RawLayer.isOther])

/-- When the model contains no tap the backward scan falls through to index
0 and the slice keeps only the first entry. -/
lemma trimModel_no_tap {m : List (String × NNModule)}
    (h : ∀ e ∈ m, isTapEntry e = false) : trimModel m = m.take 1 := by
  have hdrop : m.reverse.dropWhile (fun e => ! isTapEntry e) = [] := by
    rw [List.dropWhile_eq_nil_iff]
    intro x hx
    rw [h x (List.mem_reverse.mp hx)]
    rfl
  unfold trimModel
  rw [hdrop]

/-- C10 counterexample: the premise that no tap-set name matches any walked layer name
does not by itself guarantee that no error is raised: an unrecognized layer
(which produces no name at all) still aborts assembly. -/
theorem no_match_claim_cex :
    ¬ (∀ (evalM : List (String × NNModule) → Tensor4 → Tensor4)
        (mean std : List ℚ) (si ci : Tensor4) (cl sl : List String)
        (cnn : List RawLayer),
        (∀ name ∈ walkNames cnn 0, name ∉ cl ∧ name ∉ sl) →
        (get_style_model_and_losses evalM mean std si ci cl sl cnn).2 =
          Except.ok ([("0", NNModule.normalization mean std)], [], [])) := by
  intro h
  have h1 := h evalM0 [] [] tBatch1 tBatch1 content_layers style_layers
    [RawLayer.other "Linear"] (by simp [walkNames])
  have h2 : (get_style_model_and_losses evalM0 [] [] tBatch1 tBatch1
      content_layers style_layers [RawLayer.other "Linear"]).2 =
      Except.error "Unrecognized layer: Linear" := rfl
  rw [h2] at h1
  exact Except.noConfusion h1

/-- C10 (amended): if every layer kind is recognized and neither tap set
matches any layer name produced during the walk, assembly raises no error,
performs no target-capture forward evaluation, and returns a model truncated
to the normalization module alone together with empty style-loss and
content-loss lists (the backward truncation scan falls through to index 0). -/
theorem no_match_norm_only
    (evalM : List (String × NNModule) → Tensor4 → Tensor4)
    (mean std : List ℚ) (si ci : Tensor4) (cl sl : List String)
    (cnn : List RawLayer)
    (hrec : ∀ l ∈ cnn, RawLayer.isOther l = false)
    (hnm : ∀ name ∈ walkNames cnn 0, name ∉ cl ∧ name ∉ sl) :
    get_style_model_and_losses evalM mean std si ci cl sl cnn =
      ([], Except.ok ([("0", NNModule.normalization mean std)], [], [])) := by
  obtain ⟨ext, hw, hext⟩ := walkLayers_no_match cnn 0
    [("0", NNModule.normalization mean std)] [] [] [] hrec hnm
  unfold get_style_model_and_losses
  rw [hw]
  have hall : ∀ e ∈ ("0", NNModule.normalization mean std) :: ext,
      isTapEntry e = false := by
    intro e he
    cases List.mem_cons.mp he with
    | inl h1 => rw [h1]; rfl
    | inr h2 => exact hext e h2
  show ([], Except.ok
      (trimModel (("0", NNModule.normalization mean std) :: ext), [], [])) =
    ([], Except.ok ([("0", NNModule.normalization mean std)], [], []))
  rw [trimModel_no_tap hall]
  simp

/-- C10 witness: a concrete recognized extractor `[maxPool2d]` whose single
walked name `pool_0` is in neither default tap set assembles to the
normalization-only model with empty loss lists and an empty capture trace. -/
theorem no_match_norm_only_witness :
    get_style_model_and_losses evalM0 [] [] tBatch1 tBatch1
      content_layers style_layers [RawLayer.maxPool2d] =
      ([], Except.ok ([("0", NNModule.normalization [] [])], [], [])) :=
  no_match_norm_only evalM0 [] [] tBatch1 tBatch1 content_layers style_layers
    [RawLayer.maxPool2d] (by decide) (by decide)

end NST
